import Mathlib

/-!
Shallow embedding of the two-pass lecture-transcription pipeline of this
repository: the streaming / refining engine of `engine.py`, the variant in
`transcription_engine.py`, the bounded capture queue of
`engine_lightweight.py`, and the session save / load / streaming loop of
`main.py`.  Python strings are modelled as lists of characters; every
definition is translated from the source file named in its doc comment.
-/

/-- Python strings, modelled as lists of characters. -/
abbrev Text := List Char

/-- Python `str.strip()`: remove whitespace from both ends of a string. -/
def pyStrip (s : Text) : Text :=
  ((s.dropWhile Char.isWhitespace).reverse.dropWhile Char.isWhitespace).reverse

/-- Status strings attached to transcript records in the engines
(`"Streaming"`, `"Refined"` in `engine.py`; `"Transcribed"` in
`engine_lightweight.py`). -/
inductive Status where
  | Streaming : Status
  | Refined : Status
  | Transcribed : Status
  deriving DecidableEq, Repr

/-- One transcript record: the dicts `{"id": …, "text": …, "status": …}`
passed to `update_callback` and stored in `session_transcripts`. -/
structure TranscriptEntry where
  id : Nat
  text : Text
  status : Status
  deriving DecidableEq, Repr

/-- One job on `refine_queue`.  `tag` identifies the raw audio chunk the job
carries; `hint` is the draft text included by `transcription_engine.py`
(`engine.py` includes none). -/
structure RefineJob where
  id : Nat
  tag : Nat
  hint : Option Text
  deriving DecidableEq, Repr

/-- One audio chunk taken from `audio_queue`, together with the outcome of
the fast ASR call on it (`Except.error` models a raised exception). -/
structure StreamChunk where
  tag : Nat
  result : Except Unit Text
  deriving Repr

/-- Mutable state of the streaming loop in `engine.py`: the sentence buffer
`self.sentence_buffer` and the local counter `chunk_id`. -/
structure StreamState where
  buffer : Text
  chunkId : Nat
  deriving DecidableEq, Repr

/-- Output of running (part of) the streaming loop: final state, the
Streaming entries delivered to `update_callback`, and the jobs put on
`refine_queue`, each in emission order. -/
structure RunOut where
  state : StreamState
  entries : List TranscriptEntry
  jobs : List RefineJob
  deriving Repr

/-- Initial streaming state of `engine.py`: empty sentence buffer,
`chunk_id = 0`. -/
def streamInit : StreamState := ⟨[], 0⟩

/-- Inner loop of `_extract_complete_sentences` (`engine.py` 216-223) for one
terminator character, with explicit fuel: while `ending` occurs in the
buffer, cut at its first occurrence, keep the stripped cut iff longer than
10 characters, strip the remainder and continue.  Each iteration removes at
least one character, so fuel `buf.length` suffices. -/
def extractOneAux (ending : Char) : Nat → Text → List Text × Text
  | 0, buf => ([], buf)
  | fuel + 1, buf =>
    if ending ∈ buf then
      let i := buf.findIdx (· = ending)
      let sentence := pyStrip (buf.take (i + 1))
      let rest := pyStrip (buf.drop (i + 1))
      let p := extractOneAux ending fuel rest
      ((if 10 < sentence.length then [sentence] else []) ++ p.1, p.2)
    else ([], buf)

/-- The `while ending in self.sentence_buffer` loop of
`_extract_complete_sentences` for one terminator. -/
def extractOne (ending : Char) (buf : Text) : List Text × Text :=
  extractOneAux ending buf.length buf

/-- `TranscriptionEngine._extract_complete_sentences` (`engine.py` 209-225):
process `'.'` exhaustively, then `'!'`, then `'?'`, returning the collected
sentences and the leftover buffer. -/
def extractCompleteSentences (buf : Text) : List Text × Text :=
  let p1 := extractOne '.' buf
  let p2 := extractOne '!' p1.2
  let p3 := extractOne '?' p2.2
  (p1.1 ++ p2.1 ++ p3.1, p3.2)

/-- The per-sentence emission loop of `_streaming_thread` (`engine.py`
195-198): each sentence passing `if sentence.strip():` becomes a Streaming
entry with the current `chunk_id`, which is then incremented. -/
def numberFrom (a : Nat) : List Text → List TranscriptEntry
  | [] => []
  | s :: rest => ⟨a, s, Status.Streaming⟩ :: numberFrom (a + 1) rest

/-- One iteration of `TranscriptionEngine._streaming_thread` (`engine.py`
174-207) on a dequeued chunk.  A raised exception is printed and the loop
continues; on success the stripped transcript is appended to the sentence
buffer when longer than 2 characters, complete sentences are emitted as
Streaming entries, and one refine job carrying the chunk (and the
post-increment `chunk_id`, with no draft text) is enqueued. -/
def streamStepA (st : StreamState) (c : StreamChunk) : RunOut :=
  match c.result with
  | Except.error _ => ⟨st, [], []⟩
  | Except.ok raw =>
    let transcript := pyStrip raw
    if 2 < transcript.length then
      let buf1 := pyStrip ((st.buffer ++ [' ']) ++ transcript)
      let p := extractCompleteSentences buf1
      let emitted := p.1.filter (fun s => !(pyStrip s).isEmpty)
      let newId := st.chunkId + emitted.length
      ⟨⟨p.2, newId⟩, numberFrom st.chunkId emitted, [⟨newId, c.tag, none⟩]⟩
    else ⟨st, [], []⟩

/-- The streaming loop of `engine.py` over a finite sequence of dequeued
chunks, collecting all emitted entries and enqueued jobs in order. -/
def runA (st : StreamState) : List StreamChunk → RunOut
  | [] => ⟨st, [], []⟩
  | c :: cs =>
    let o1 := streamStepA st c
    let o2 := runA o1.state cs
    ⟨o2.state, o1.entries ++ o2.entries, o1.jobs ++ o2.jobs⟩

/-- One iteration of `TranscriptionEngine._refining_thread` (`engine.py`
227-254) on a dequeued job: a raised exception is printed and the loop
continues with `session_transcripts` untouched; on success a Refined record
is appended to `session_transcripts` and delivered to `update_callback`
when the stripped transcript is longer than 2 characters.  Returns the new
`session_transcripts` and the callback emissions. -/
def refineStepA (session : List TranscriptEntry) (job : RefineJob)
    (result : Except Unit Text) : List TranscriptEntry × List TranscriptEntry :=
  match result with
  | Except.error _ => (session, [])
  | Except.ok raw =>
    let transcript := pyStrip raw
    if 2 < transcript.length then
      (session ++ [⟨job.id, transcript, Status.Refined⟩],
        [⟨job.id, transcript, Status.Refined⟩])
    else (session, [])

/-- The refining loop of `engine.py` over a finite sequence of dequeued jobs
paired with the outcome of the refining ASR call on each. -/
def refineRunA (session : List TranscriptEntry) :
    List (RefineJob × Except Unit Text) → List TranscriptEntry × List TranscriptEntry
  | [] => (session, [])
  | (j, r) :: rest =>
    let p := refineStepA session j r
    let q := refineRunA p.1 rest
    (q.1, p.2 ++ q.2)

/-- One iteration of `_streaming_thread` in `transcription_engine.py`
(113-127) with the model loaded: the raw transcript is emitted as a
Streaming entry with the current `chunk_id`, a refine job with the same id
carrying the chunk and the transcript as hint is enqueued, and `chunk_id`
is incremented.  Input chunks are (tag, transcript) pairs. -/
def runB (chunkId : Nat) : List (Nat × Text) → List TranscriptEntry × List RefineJob
  | [] => ([], [])
  | c :: cs =>
    let r := runB (chunkId + 1) cs
    (⟨chunkId, c.2, Status.Streaming⟩ :: r.1, ⟨chunkId, c.1, some c.2⟩ :: r.2)

/-- Python `str.split(sep)` for a single character separator, used to model
line iteration over a file's contents. -/
def splitOnChar (sep : Char) : Text → List Text
  | [] => [[]]
  | c :: cs =>
    let r := splitOnChar sep cs
    if c = sep then [] :: r
    else
      match r with
      | [] => [[c]]
      | h :: t => (c :: h) :: t

/-- Iterating a Python text file (`for line in f`): the pieces between
newlines, one per line, with no empty final line when the contents end in a
newline and no lines at all for an empty file.  (Each line is subsequently
stripped by the caller, so the trailing newline of each line is dropped
here.) -/
def readLines (c : Text) : List Text :=
  if c = [] then []
  else if c.getLast? = some '\n' then (splitOnChar '\n' c).dropLast
  else splitOnChar '\n' c

/-- `Transcriber.save_session` (`main.py` 80-85): write every line of
`ui.history` followed by a newline.  Returns the file contents. -/
def saveSessionMain (history : List Text) : Text :=
  (history.map (fun l => l ++ ['\n'])).flatten

/-- `Transcriber.load_session` (`main.py` 87-97): append the stripped lines
of the session file to `ui.history`. -/
def loadSessionMain (content : Text) (history : List Text) : List Text :=
  history ++ (readLines content).map pyStrip

/-- The loop of `Transcriber.streaming_processor` (`main.py` 227-247):
`history_index` starts at 0; every chunk whose streaming transcript is
non-empty is put on `refine_queue` as `(history_index, chunk, transcript)`
and the index is incremented.  Returns the `(index, transcript)` pairs of
the enqueued jobs. -/
def mainStreamGo (idx : Nat) : List Text → List (Nat × Text)
  | [] => []
  | t :: rest =>
    if t.isEmpty then mainStreamGo idx rest
    else (idx, t) :: mainStreamGo (idx + 1) rest

/-- `streaming_processor` as started by `Transcriber.start` (`main.py`
99-112, 227-247): the local counter `history_index` is initialised to 0
regardless of any session loaded by `--resume`. -/
def mainStreamingRun (transcripts : List Text) : List (Nat × Text) :=
  mainStreamGo 0 transcripts

/-- `queue.Queue(maxsize=cap).put_nowait` for a positive capacity as used by
`engine_lightweight.py` line 50 and 202-211: append when the queue holds
fewer than `cap` items, otherwise raise `queue.Full` — which the audio
thread catches, logging a warning and discarding the chunk it was pushing.
Returns the queue and whether the chunk was dropped. -/
def putNowait (cap : Nat) (q : List Nat) (x : Nat) : List Nat × Bool :=
  if q.length < cap then (q ++ [x], false) else (q, true)

/-- Pushing a sequence of chunks through `_audio_input_thread`'s
`put_nowait` (`engine_lightweight.py` 206-211) while the consumer is
paused.  Returns the final queue and the number of dropped chunks. -/
def pushChunks (cap : Nat) (q : List Nat) : List Nat → List Nat × Nat
  | [] => (q, 0)
  | x :: xs =>
    let p := putNowait cap q x
    let r := pushChunks cap p.1 xs
    (r.1, (if p.2 then 1 else 0) + r.2)

/-- Rendering of a status in the session file (`engine.py` 127). -/
def statusText : Status → Text
  | Status.Streaming => ( "Streaming".data)
  | Status.Refined => ( "Refined".data)
  | Status.Transcribed => ( "Transcribed".data)

/-- One record of the session file: `f"[{status}] {text}\n\n"`
(`engine.py` 127). -/
def renderRecord (e : TranscriptEntry) : Text :=
  (['['] ++ statusText e.status ++ [']', ' ']) ++ e.text ++ ['\n', '\n']

/-- The header line of `_save_session` (`engine.py` 124): the session
timestamp rendered by `datetime.now().strftime(…)` is embedded in it. -/
def headerLine (ts : Text) : Text :=
  ( "Transcription Session - ".data) ++ ts ++ ['\n']

/-- The separator written by `_save_session` (`engine.py` 125). -/
def sepLine : Text :=
  List.replicate 50 '=' ++ ['\n', '\n']

/-- The successive `f.write` payloads of
`TranscriptionEngine._save_session` (`engine.py` 120-130). -/
def snapshotWrites (ts : Text) (session : List TranscriptEntry) : List Text :=
  headerLine ts :: sepLine :: session.map renderRecord

/-- The full contents written by `_save_session` when every write
succeeds. -/
def saveSessionText (ts : Text) (session : List TranscriptEntry) : Text :=
  (snapshotWrites ts session).flatten

/-- Where a snapshot attempt fails: at `open` (before the file is
truncated), at the k-th `f.write`, or nowhere. -/
inductive SnapFail where
  | atOpen : SnapFail
  | atWrite : Nat → SnapFail
  | noFail : SnapFail
  deriving DecidableEq, Repr

/-- File-system effect of one `_save_session` attempt (`engine.py`
120-130): `open(self.session_file, 'w')` truncates the file on success, the
writes are performed in order, and any raised exception is caught and
printed (second component: whether an error was logged).  A failure at
write `k` leaves the previously successful writes in the file. -/
def saveSessionDisk (prev : Option Text) (ts : Text)
    (session : List TranscriptEntry) (f : SnapFail) : Option Text × Bool :=
  match f with
  | SnapFail.atOpen => (prev, true)
  | SnapFail.atWrite k => (some ((snapshotWrites ts session).take k).flatten, true)
  | SnapFail.noFail => (some (saveSessionText ts session), false)

/-- Sentence-terminal punctuation (`engine.py` 214). -/
def isTerminal (c : Char) : Bool := c = '.' || c = '!' || c = '?'

/-- Modelled from the spec: the SentenceSegmenter described in §4.3 of the
specification scans the buffer for sentence-terminal punctuation (`.`,
`!`, `?`) in left-to-right order, cuts the buffer up to and including each
terminator found, discards candidates not longer than the minimum length
and removes the consumed prefix.  This definition follows the spec's
words; it exists to be compared with `extractCompleteSentences`, the
definition translated from the source. -/
def specScanAux : Nat → Text → List Text × Text
  | 0, buf => ([], buf)
  | fuel + 1, buf =>
    if buf.any isTerminal then
      let i := buf.findIdx isTerminal
      let sentence := pyStrip (buf.take (i + 1))
      let rest := pyStrip (buf.drop (i + 1))
      let p := specScanAux fuel rest
      ((if 10 < sentence.length then [sentence] else []) ++ p.1, p.2)
    else ([], buf)

/-- Modelled from the spec: left-to-right scan-and-cut segmentation
(specification §4.3). -/
def specScanLTR (buf : Text) : List Text × Text :=
  specScanAux buf.length buf

/-- The pipeline of `engine.py` end to end: stream the chunks, then run the
refining loop on the enqueued jobs paired with the refining-call outcomes,
starting from an empty `session_transcripts`.  Returns the final
`session_transcripts`. -/
def pipelineSessionA (chunks : List StreamChunk)
    (refined : List (Except Unit Text)) : List TranscriptEntry :=
  (refineRunA [] ((runA streamInit chunks).jobs.zip refined)).1

/-- A chunk whose fast ASR call yields one full sentence. -/
def chunkHello : StreamChunk := ⟨5, Except.ok ( "Hello dear world.".data)⟩

/-- A chunk whose fast ASR call succeeds but yields a 2-character
transcript. -/
def chunkHi : StreamChunk := ⟨7, Except.ok ( "Hi".data)⟩

/-- The three-feed example of the specification, as dequeued chunks. -/
def feedsExample : List StreamChunk :=
  [⟨0, Except.ok ( "Hello world.".data)⟩, ⟨1, Except.ok ( " This is fine".data)⟩,
    ⟨2, Except.ok ( " too.".data)⟩]

/-- A buffer holding a `!`-terminated sentence followed by a `.`-terminated
one. -/
def mixedBuf : Text := ( "Wow, amazing! This is a test.".data)

theorem pyStrip_sublist (s : Text) : List.Sublist (pyStrip s) s := by
  have h1 : List.Sublist (s.dropWhile Char.isWhitespace) s :=
    (List.dropWhile_suffix Char.isWhitespace).sublist
  have h2 : List.Sublist ((s.dropWhile Char.isWhitespace).reverse.dropWhile Char.isWhitespace)
      (s.dropWhile Char.isWhitespace).reverse :=
    (List.dropWhile_suffix Char.isWhitespace).sublist
  have h3 := h2.reverse
  rw [List.reverse_reverse] at h3
  exact h3.trans h1

theorem pyStrip_length_le (s : Text) : (pyStrip s).length ≤ s.length :=
  (pyStrip_sublist s).length_le

theorem extractOneAux_sentence_length (e : Char) :
    ∀ (fuel : Nat) (buf : Text), ∀ s ∈ (extractOneAux e fuel buf).1, 10 < s.length
  | 0, buf => by simp [extractOneAux]
  | fuel + 1, buf => by
    intro s hs
    by_cases he : e ∈ buf
    · by_cases hlen : 10 < (pyStrip (buf.take (buf.findIdx (· = e) + 1))).length
      · simp [extractOneAux, he, hlen] at hs
        rcases hs with rfl | hs
        · exact hlen
        · exact extractOneAux_sentence_length e fuel _ s hs
      · simp [extractOneAux, he, hlen] at hs
        exact extractOneAux_sentence_length e fuel _ s hs
    · simp [extractOneAux, he] at hs

theorem extractOneAux_final_sublist (e : Char) :
    ∀ (fuel : Nat) (buf : Text), List.Sublist (extractOneAux e fuel buf).2 buf
  | 0, buf => by simp [extractOneAux]
  | fuel + 1, buf => by
    by_cases he : e ∈ buf
    · have ih := extractOneAux_final_sublist e fuel
        (pyStrip (buf.drop (buf.findIdx (· = e) + 1)))
      have h2 := pyStrip_sublist (buf.drop (buf.findIdx (· = e) + 1))
      have h3 : List.Sublist (buf.drop (buf.findIdx (· = e) + 1)) buf :=
        List.drop_sublist _ _
      simpa [extractOneAux, he] using ih.trans (h2.trans h3)
    · simp [extractOneAux, he]

theorem extractOneAux_not_mem (e : Char) :
    ∀ (fuel : Nat) (buf : Text), buf.length ≤ fuel → e ∉ (extractOneAux e fuel buf).2
  | 0, buf, h => by
    have hb : buf = [] := List.eq_nil_of_length_eq_zero (Nat.le_zero.mp h)
    subst hb
    simp [extractOneAux]
  | fuel + 1, buf, h => by
    by_cases he : e ∈ buf
    · have hb : 0 < buf.length := List.length_pos.mpr (List.ne_nil_of_mem he)
      have hr : (pyStrip (buf.drop (buf.findIdx (· = e) + 1))).length ≤ fuel := by
        have h1 := pyStrip_length_le (buf.drop (buf.findIdx (· = e) + 1))
        have h2 := List.length_drop (buf.findIdx (· = e) + 1) buf
        omega
      have ih := extractOneAux_not_mem e fuel _ hr
      simpa [extractOneAux, he] using ih
    · simp [extractOneAux, he]

theorem extractCS_sentence_length (buf : Text) :
    ∀ s ∈ (extractCompleteSentences buf).1, 10 < s.length := by
  intro s hs
  simp only [extractCompleteSentences, extractOne] at hs
  rcases List.mem_append.mp hs with h | h3
  · rcases List.mem_append.mp h with h1 | h2
    · exact extractOneAux_sentence_length '.' _ _ s h1
    · exact extractOneAux_sentence_length '!' _ _ s h2
  · exact extractOneAux_sentence_length '?' _ _ s h3

theorem extractCS_final_terminator_free (buf : Text) :
    '.' ∉ (extractCompleteSentences buf).2 ∧ '!' ∉ (extractCompleteSentences buf).2 ∧
      '?' ∉ (extractCompleteSentences buf).2 := by
  simp only [extractCompleteSentences, extractOne]
  set b1 := (extractOneAux '.' buf.length buf).2 with hb1
  set b2 := (extractOneAux '!' b1.length b1).2 with hb2
  set b3 := (extractOneAux '?' b2.length b2).2 with hb3
  have hdot : '.' ∉ b1 := extractOneAux_not_mem '.' buf.length buf le_rfl
  have hbang : '!' ∉ b2 := extractOneAux_not_mem '!' b1.length b1 le_rfl
  have hq : '?' ∉ b3 := extractOneAux_not_mem '?' b2.length b2 le_rfl
  have s32 : List.Sublist b3 b2 := extractOneAux_final_sublist '?' b2.length b2
  have s21 : List.Sublist b2 b1 := extractOneAux_final_sublist '!' b1.length b1
  refine ⟨fun hmem => hdot (s21.subset (s32.subset hmem)), fun hmem => hbang (s32.subset hmem), hq⟩

theorem numberFrom_length (a : Nat) (l : List Text) :
    (numberFrom a l).length = l.length := by
  induction l generalizing a with
  | nil => simp [numberFrom]
  | cons s rest ih => simp [numberFrom, ih]

theorem numberFrom_map_id (a : Nat) (l : List Text) :
    (numberFrom a l).map TranscriptEntry.id = List.range' a l.length := by
  induction l generalizing a with
  | nil => simp [numberFrom]
  | cons s rest ih => simp [numberFrom, List.range'_succ, ih]

theorem range1_append (s m n : Nat) :
    List.range' s m ++ List.range' (s + m) n = List.range' s (m + n) := by
  have h := List.range'_append s m n 1
  rw [Nat.one_mul] at h
  rw [h, Nat.add_comm n m]

theorem streamStepA_spec (st : StreamState) (c : StreamChunk) :
    (streamStepA st c).entries.map TranscriptEntry.id =
        List.range' st.chunkId (streamStepA st c).entries.length ∧
      (streamStepA st c).state.chunkId = st.chunkId + (streamStepA st c).entries.length ∧
      ∀ j ∈ (streamStepA st c).jobs, j.id = st.chunkId + (streamStepA st c).entries.length := by
  cases hc : c.result with
  | error u => simp [streamStepA, hc]
  | ok raw =>
    by_cases hl : 2 < (pyStrip raw).length
    · refine ⟨?_, ?_, ?_⟩
      · simp only [streamStepA, hc, hl, if_true]
        rw [numberFrom_length, numberFrom_map_id]
      · simp [streamStepA, hc, hl, numberFrom_length]
      · intro j hj
        simp only [streamStepA, hc, hl, if_true, List.mem_singleton] at hj
        subst hj
        simp [streamStepA, hc, hl, numberFrom_length]
    · simp [streamStepA, hc, hl]

theorem runA_spec : ∀ (cs : List StreamChunk) (st : StreamState),
    (runA st cs).entries.map TranscriptEntry.id =
        List.range' st.chunkId (runA st cs).entries.length ∧
      (runA st cs).state.chunkId = st.chunkId + (runA st cs).entries.length
  | [], st => by simp [runA]
  | c :: cs, st => by
    obtain ⟨h1, h2, _⟩ := streamStepA_spec st c
    obtain ⟨ih1, ih2⟩ := runA_spec cs (streamStepA st c).state
    rw [h2] at ih1 ih2
    simp only [runA]
    constructor
    · rw [List.map_append, h1, ih1, List.length_append]
      exact range1_append st.chunkId (streamStepA st c).entries.length
        (runA (streamStepA st c).state cs).entries.length
    · rw [List.length_append]
      omega

/-- Claim C1 (amended): over any run of `engine.py`'s streaming loop the
Streaming entry ids are exactly 0, 1, 2, … in emission order — strictly
increasing, each created exactly once — but every RefineJob is enqueued
with the post-increment counter as its id, so every Streaming entry
existing at enqueue time has id strictly below the job's id: no Streaming
entry with the job's id exists yet. -/
theorem fastPass_entry_ids (pre post : List StreamChunk) (c : StreamChunk) :
    (runA streamInit (pre ++ c :: post)).entries.map TranscriptEntry.id =
        List.range' 0 (runA streamInit (pre ++ c :: post)).entries.length ∧
      ∀ j ∈ (streamStepA (runA streamInit pre).state c).jobs,
        ∀ e ∈ (runA streamInit pre).entries ++
            (streamStepA (runA streamInit pre).state c).entries,
          e.id < j.id := by
  constructor
  · simpa [streamInit] using (runA_spec (pre ++ c :: post) streamInit).1
  · intro j hj e he
    obtain ⟨hp1, hp2⟩ := runA_spec pre streamInit
    obtain ⟨hs1, hs2, hs3⟩ := streamStepA_spec (runA streamInit pre).state c
    have hjid := hs3 j hj
    have hz : streamInit.chunkId = 0 := rfl
    rw [hz] at hp1 hp2
    rcases List.mem_append.mp he with h | h
    · have hm : e.id ∈ (runA streamInit pre).entries.map TranscriptEntry.id :=
        List.mem_map_of_mem _ h
      rw [hp1] at hm
      have hb := List.mem_range'_1.mp hm
      omega
    · have hm : e.id ∈ (streamStepA (runA streamInit pre).state c).entries.map
          TranscriptEntry.id := List.mem_map_of_mem _ h
      rw [hs1] at hm
      have hb := List.mem_range'_1.mp hm
      omega

/-- Witness for C1's amended theorem at a one-chunk run. -/
theorem fastPass_entry_ids_witness :
    (runA streamInit ([] ++ chunkHello :: [])).entries.map TranscriptEntry.id =
        List.range' 0 (runA streamInit ([] ++ chunkHello :: [])).entries.length ∧
      ∀ j ∈ (streamStepA (runA streamInit []).state chunkHello).jobs,
        ∀ e ∈ (runA streamInit []).entries ++
            (streamStepA (runA streamInit []).state chunkHello).entries,
          e.id < j.id :=
  fastPass_entry_ids [] [] chunkHello

/-- Counterexample for claim C1 as stated: a successfully streamed chunk
that emits the Streaming entry with id 0 enqueues a RefineJob with id 1,
for which no Streaming entry exists at enqueue time. -/
theorem fastPass_refineJob_id_cex :
    (streamStepA streamInit chunkHello).entries.map TranscriptEntry.id = [0] ∧
      (streamStepA streamInit chunkHello).jobs.map RefineJob.id = [1] ∧
      ¬ ∃ e ∈ (streamStepA streamInit chunkHello).entries,
          e.id = 1 ∧ e.status = Status.Streaming := by decide

theorem runB_spec : ∀ (cs : List (Nat × Text)) (cid : Nat),
    (runB cid cs).2.length = cs.length ∧
      (runB cid cs).2.map (fun j => (j.tag, j.hint)) =
        cs.map (fun c => (c.1, some c.2)) ∧
      (runB cid cs).2.map RefineJob.id = (runB cid cs).1.map TranscriptEntry.id
  | [], cid => by simp [runB]
  | c :: cs, cid => by
    obtain ⟨ih1, ih2, ih3⟩ := runB_spec cs (cid + 1)
    simp [runB, ih1, ih2, ih3]

/-- Claim C2 (amended): in `transcription_engine.py` every successfully
transcribed chunk yields exactly one RefineJob, in order, carrying the
original chunk and the just-produced draft text as hint, with the job id
equal to the Streaming entry id; in `engine.py` a job is enqueued only when
the stripped transcript is longer than 2 characters, and it carries the
audio chunk but no draft text. -/
theorem refineJob_per_chunk (cid : Nat) (cs : List (Nat × Text)) (st : StreamState)
    (a : Nat) (raw : Text) :
    (runB cid cs).2.length = cs.length ∧
      (runB cid cs).2.map (fun j => (j.tag, j.hint)) =
        cs.map (fun c => (c.1, some c.2)) ∧
      (runB cid cs).2.map RefineJob.id = (runB cid cs).1.map TranscriptEntry.id ∧
      (streamStepA st ⟨a, Except.ok raw⟩).jobs =
        (if 2 < (pyStrip raw).length
          then [⟨(streamStepA st ⟨a, Except.ok raw⟩).state.chunkId, a, none⟩]
          else []) := by
  obtain ⟨h1, h2, h3⟩ := runB_spec cs cid
  refine ⟨h1, h2, h3, ?_⟩
  by_cases hl : 2 < (pyStrip raw).length
  · simp [streamStepA, hl]
  · simp [streamStepA, hl]

/-- Counterexample for claim C2 as stated: in `engine.py` a successfully
transcribed chunk with a short transcript is never enqueued for refining,
and an enqueued job carries no draft text. -/
theorem refineJob_missing_cex :
    (streamStepA streamInit chunkHi).jobs = [] ∧
      (streamStepA streamInit chunkHello).jobs.map RefineJob.hint = [none] := by
  decide

/-- Claim C3 (amended): the three-feed example yields exactly the two
sentences of the specification through the streaming loop, and segmentation
consumes every occurrence of each terminator — but by kind (`.` first, then
`!`, then `?`), not in left-to-right order across kinds. -/
theorem segmenter_example (buf : Text) :
    (runA streamInit feedsExample).entries.map TranscriptEntry.text =
        [( "Hello world.".data), ( "This is fine too.".data)] ∧
      '.' ∉ (extractCompleteSentences buf).2 ∧
      '!' ∉ (extractCompleteSentences buf).2 ∧
      '?' ∉ (extractCompleteSentences buf).2 :=
  ⟨by decide, extractCS_final_terminator_free buf⟩

/-- Counterexample for claim C3 as stated: on a buffer holding a
`!`-terminated sentence before a `.`-terminated one, the code cuts a single
sentence at the later `.` instead of the left-to-right cuts of the
specification. -/
theorem segmenter_order_cex :
    (extractCompleteSentences mixedBuf).1 = [mixedBuf] ∧
      (specScanLTR mixedBuf).1 =
        [( "Wow, amazing!".data), ( "This is a test.".data)] ∧
      (extractCompleteSentences mixedBuf).1 ≠ (specScanLTR mixedBuf).1 := by
  decide

/-- Claim C4: every candidate sentence of at most 10 characters is
discarded: never emitted, while its consumed prefix is still removed from
the buffer — `"Ok."` is dropped entirely, alone or ahead of a kept
sentence. -/
theorem short_candidates_discarded :
    (∀ buf : Text, ∀ s ∈ (extractCompleteSentences buf).1, 10 < s.length) ∧
      extractCompleteSentences ( "Ok.".data) = ([], []) ∧
      extractCompleteSentences ( "Ok. What a lovely day.".data) =
        ([( "What a lovely day.".data)], []) :=
  ⟨extractCS_sentence_length, by decide, by decide⟩

/-- Witness for C4 at a concrete emitted sentence. -/
theorem short_candidates_discarded_witness :
    10 < (( "What a lovely day.".data) : Text).length :=
  short_candidates_discarded.1 ( "Ok. What a lovely day.".data)
    ( "What a lovely day.".data) (by decide)

/-- Claim C5 (amended): `engine_lightweight.py` never blocks the capture
thread, but on overflow it drops the chunk being pushed — the newest — so
the queue keeps the earliest chunks that fit. -/
theorem overflow_drop_newest (cap : Nat) (q xs : List Nat) (h : q.length ≤ cap) :
    pushChunks cap q xs =
      (q ++ xs.take (cap - q.length), xs.length - (cap - q.length)) := by
  induction xs generalizing q with
  | nil => simp [pushChunks]
  | cons x xs ih =>
    by_cases hq : q.length < cap
    · obtain ⟨d, hd⟩ : ∃ d, cap - q.length = d + 1 := ⟨cap - q.length - 1, by omega⟩
      have hq1 : (q ++ [x]).length ≤ cap := by
        simp only [List.length_append, List.length_singleton]
        omega
      have ih' := ih (q ++ [x]) hq1
      have e1 : cap - (q ++ [x]).length = d := by
        simp only [List.length_append, List.length_singleton]
        omega
      rw [e1] at ih'
      have e2 : (x :: xs).take (cap - q.length) = x :: xs.take d := by
        rw [hd, List.take_succ_cons]
      have e3 : (x :: xs).length - (cap - q.length) = xs.length - d := by
        rw [hd]
        simp only [List.length_cons]
        omega
      simp only [pushChunks, putNowait, if_pos hq, ih', e2, e3]
      simp [List.append_assoc]
    · have hq0 : cap - q.length = 0 := by omega
      have ih' := ih q h
      rw [hq0] at ih'
      simp only [pushChunks, putNowait, if_neg hq, ih', hq0]
      simp
      omega

/-- Witness for C5's amended theorem at the capacity-2, five-chunk
scenario. -/
theorem overflow_drop_newest_witness :
    pushChunks 2 [] [1, 2, 3, 4, 5] =
      ([] ++ List.take (2 - List.length ([] : List Nat)) [1, 2, 3, 4, 5],
        List.length [1, 2, 3, 4, 5] - (2 - List.length ([] : List Nat))) :=
  overflow_drop_newest 2 [] [1, 2, 3, 4, 5] (by decide)

/-- Counterexample for claim C5 as stated: pushing 5 chunks into a paused
capacity-2 queue leaves the 2 oldest chunks, not the 2 most recent. -/
theorem overflow_capacity2_cex :
    pushChunks 2 [] [1, 2, 3, 4, 5] = ([1, 2], 3) ∧
      ([1, 2] : List Nat) ≠ [4, 5] := by decide

theorem splitOnChar_append (sep : Char) :
    ∀ (l r : Text), sep ∉ l →
      splitOnChar sep (l ++ sep :: r) = l :: splitOnChar sep r
  | [], r, _ => by simp [splitOnChar]
  | c :: l, r, h => by
    have hc : ¬ c = sep := by
      intro hcs
      exact h (hcs ▸ List.mem_cons_self c l)
    have ih := splitOnChar_append sep l r (fun hm => h (List.mem_cons_of_mem c hm))
    simp only [List.cons_append, splitOnChar, List.append_eq, ih, if_neg hc]

theorem splitOnChar_flatten (sep : Char) :
    ∀ (h : List Text), (∀ l ∈ h, sep ∉ l) →
      splitOnChar sep ((h.map (fun l => l ++ [sep])).flatten) = h ++ [[]]
  | [], _ => by simp [splitOnChar]
  | l :: t, hn => by
    have ih := splitOnChar_flatten sep t (fun m hm => hn m (List.mem_cons_of_mem l hm))
    have hl : sep ∉ l := hn l (List.mem_cons_self l t)
    simp only [List.map_cons, List.flatten_cons, List.append_assoc, List.singleton_append]
    rw [splitOnChar_append sep l _ hl, ih]
    simp

theorem getLast?_append_some : ∀ (l₁ l₂ : Text) (a : Char),
    l₂.getLast? = some a → (l₁ ++ l₂).getLast? = some a
  | [], l₂, a, h => by simpa using h
  | c :: l₁, l₂, a, h => by
    have hne : l₂ ≠ [] := by
      intro he
      rw [he] at h
      simp at h
    obtain ⟨b, m, hm⟩ := List.exists_cons_of_ne_nil (List.append_ne_nil_of_right_ne_nil l₁ hne)
    have ih := getLast?_append_some l₁ l₂ a h
    rw [List.cons_append, hm, List.getLast?_cons_cons, ← hm, ih]

theorem flatten_concat_getLast (x : Char) :
    ∀ (h : List Text), h ≠ [] →
      ((h.map (fun l => l ++ [x])).flatten).getLast? = some x
  | [], hne => absurd rfl hne
  | [l], _ => by simp [List.getLast?_concat]
  | l :: m :: t, _ => by
    have ih := flatten_concat_getLast x (m :: t) (by simp)
    simp only [List.map_cons, List.flatten_cons] at ih ⊢
    exact getLast?_append_some _ _ x ih

theorem map_pyStrip_id : ∀ (h : List Text), (∀ l ∈ h, pyStrip l = l) → h.map pyStrip = h
  | [], _ => rfl
  | l :: t, hc => by
    rw [List.map_cons, hc l (List.mem_cons_self l t),
      map_pyStrip_id t (fun m hm => hc m (List.mem_cons_of_mem l hm))]

theorem saveLoad_roundtrip (h : List Text)
    (hc : ∀ l ∈ h, '\n' ∉ l ∧ pyStrip l = l) :
    loadSessionMain (saveSessionMain h) [] = h := by
  rcases h with _ | ⟨l, t⟩
  · simp [loadSessionMain, saveSessionMain, readLines]
  · have hne : saveSessionMain (l :: t) ≠ [] := by
      simp [saveSessionMain]
    have hlast : (saveSessionMain (l :: t)).getLast? = some '\n' :=
      flatten_concat_getLast '\n' (l :: t) (by simp)
    have hsplit : splitOnChar '\n' (saveSessionMain (l :: t)) = (l :: t) ++ [[]] :=
      splitOnChar_flatten '\n' (l :: t) (fun m hm => (hc m hm).1)
    have hmap : (l :: t).map pyStrip = l :: t :=
      map_pyStrip_id (l :: t) (fun m hm => (hc m hm).2)
    simp only [loadSessionMain, readLines, if_neg hne, if_pos hlast, hsplit,
      List.dropLast_concat, hmap, List.nil_append]

/-- Claim C6 (amended): saving then loading a session reconstructs the
history line for line (for the newline-free, stripped lines the UI
produces), but the id counter of the streaming processor restarts at 0
after a load instead of continuing past the maximum loaded id. -/
theorem session_resume (h : List Text) (hc : ∀ l ∈ h, '\n' ∉ l ∧ pyStrip l = l)
    (t : Text) (rest : List Text) (ht : ¬ t.isEmpty) :
    loadSessionMain (saveSessionMain h) [] = h ∧
      (mainStreamingRun (t :: rest)).head? = some (0, t) := by
  refine ⟨saveLoad_roundtrip h hc, ?_⟩
  simp [mainStreamingRun, mainStreamGo, ht]

/-- Witness for C6's amended theorem at a concrete one-line session. -/
theorem session_resume_witness :
    loadSessionMain (saveSessionMain [( "[10:00:00] [Streaming] Hello there".data)]) [] =
        [( "[10:00:00] [Streaming] Hello there".data)] ∧
      (mainStreamingRun (( "Hello again".data) :: [])).head? =
        some (0, ( "Hello again".data)) :=
  session_resume [( "[10:00:00] [Streaming] Hello there".data)] (by decide)
    ( "Hello again".data) [] (by decide)

/-- Counterexample for claim C6 as stated: after loading a snapshot whose
single entry had been assigned id 0, the first id the streaming processor
assigns is again 0 (`history_index = 0` in `main.py` 229), not strictly
greater than the maximum loaded id. -/
theorem session_resume_cex :
    loadSessionMain (saveSessionMain [( "[10:00:00] [Streaming] Hello there".data)]) [] =
        [( "[10:00:00] [Streaming] Hello there".data)] ∧
      mainStreamingRun [( "Hello again".data)] = [(0, ( "Hello again".data))] ∧
      ¬ (0 : Nat) > 0 := by decide

/-- Claim C7 (amended): two snapshots with no intervening mutation agree
byte for byte after their header lines and are byte-identical exactly when
the rendered `datetime.now()` timestamps coincide; the timestamp is
embedded in the header, so snapshots taken in different seconds differ. -/
theorem snapshot_idempotent (ts1 ts2 : Text) (session : List TranscriptEntry) :
    List.drop (headerLine ts1).length (saveSessionText ts1 session) =
        List.drop (headerLine ts2).length (saveSessionText ts2 session) ∧
      (ts1 = ts2 → saveSessionText ts1 session = saveSessionText ts2 session) := by
  constructor
  · simp only [saveSessionText, snapshotWrites, List.flatten_cons]
    rw [List.drop_left, List.drop_left]
  · intro he
    rw [he]

/-- Witness for C7's amended theorem at equal timestamps. -/
theorem snapshot_idempotent_witness :
    saveSessionText ( "2025-01-01 10:00:00".data) [] =
      saveSessionText ( "2025-01-01 10:00:00".data) [] :=
  (snapshot_idempotent ( "2025-01-01 10:00:00".data)
    ( "2025-01-01 10:00:00".data) []).2 rfl

/-- Counterexample for claim C7 as stated: with no intervening append or
update, snapshots rendered one second apart are not byte-identical. -/
theorem snapshot_not_idempotent_cex :
    saveSessionText ( "2025-01-01 10:00:00".data) [] ≠
      saveSessionText ( "2025-01-01 10:00:01".data) [] := by decide

/-- Claim C8: a failing ASR call in either worker of `engine.py` is dropped
after logging: nothing is emitted or enqueued, the state and
`session_transcripts` — hence every existing Streaming entry — are
untouched, and the loop continues with the remaining items, so one failure
never halts the pipeline. -/
theorem engine_failure_dropped (st : StreamState) (a : Nat) (cs : List StreamChunk)
    (session : List TranscriptEntry) (j : RefineJob)
    (rest : List (RefineJob × Except Unit Text)) :
    streamStepA st ⟨a, Except.error ()⟩ = ⟨st, [], []⟩ ∧
      runA st (⟨a, Except.error ()⟩ :: cs) = runA st cs ∧
      refineStepA session j (Except.error ()) = (session, []) ∧
      refineRunA session ((j, Except.error ()) :: rest) = refineRunA session rest :=
  ⟨rfl, rfl, rfl, rfl⟩

theorem refineRunA_status : ∀ (l : List (RefineJob × Except Unit Text))
    (session : List TranscriptEntry),
    (∀ e ∈ session, e.status = Status.Refined) →
    ∀ e ∈ (refineRunA session l).1, e.status = Status.Refined
  | [], session, hs => by simpa [refineRunA] using hs
  | (j, r) :: rest, session, hs => by
    intro e he
    refine refineRunA_status rest (refineStepA session j r).1 ?_ e he
    intro f hf
    cases r with
    | error u =>
      simp only [refineStepA] at hf
      exact hs f hf
    | ok raw =>
      by_cases hl : 2 < (pyStrip raw).length
      · simp only [refineStepA, hl, if_true] at hf
        rcases List.mem_append.mp hf with hm | hm
        · exact hs f hm
        · rw [List.mem_singleton.mp hm]
      · simp only [refineStepA, hl, if_false] at hf
        exact hs f hf

/-- Claim C10: in the `engine.py` pipeline every entry of
`session_transcripts` was appended by the refining thread with status
Refined — the streaming thread reaches only `update_callback` — so every
record written to a saved session file renders with the `[Refined]`
prefix. -/
theorem refined_only_persisted (chunks : List StreamChunk)
    (results : List (Except Unit Text)) :
    (∀ e ∈ pipelineSessionA chunks results, e.status = Status.Refined) ∧
      ∀ e ∈ pipelineSessionA chunks results,
        renderRecord e = ( "[Refined] ".data) ++ e.text ++ ['\n', '\n'] := by
  have hst : ∀ e ∈ pipelineSessionA chunks results, e.status = Status.Refined := by
    intro e he
    refine refineRunA_status _ [] ?_ e he
    intro f hf
    cases hf
  refine ⟨hst, ?_⟩
  intro e he
  have hR : (( "[Refined] ".data : Text) ++ e.text ++ ['\n', '\n']) =
      (['['] ++ statusText Status.Refined ++ [']', ' ']) ++ e.text ++ ['\n', '\n'] := by
    have hchars : ( "[Refined] ".data : Text) =
        ['['] ++ statusText Status.Refined ++ [']', ' '] := by decide
    rw [hchars]
  simp only [renderRecord, hst e he]
  rw [hR]

/-- Witness for C10 at a one-chunk pipeline with a successful refine
call. -/
theorem refined_only_persisted_witness :
    (⟨1, ( "Hello refined result.".data), Status.Refined⟩ : TranscriptEntry).status =
      Status.Refined :=
  (refined_only_persisted [chunkHello]
      [Except.ok ( "Hello refined result.".data)]).1
    ⟨1, ( "Hello refined result.".data), Status.Refined⟩ (by decide)

/-- Claim C9 (amended): a failed snapshot attempt is only logged and the
in-memory session list is untouched, so an immediate retry with the same
data writes the complete snapshot; a failure at `open` leaves the previous
file intact, but a failure during writing does not — `open(…, 'w')` has
already truncated the file, which is left holding exactly the successfully
written prefix. -/
theorem snapshot_failure (prev : Option Text) (ts : Text)
    (session : List TranscriptEntry) (k : Nat) :
    saveSessionDisk prev ts session SnapFail.atOpen = (prev, true) ∧
      (saveSessionDisk prev ts session (SnapFail.atWrite k)).2 = true ∧
      (saveSessionDisk prev ts session (SnapFail.atWrite k)).1 =
        some ((snapshotWrites ts session).take k).flatten ∧
      saveSessionDisk (saveSessionDisk prev ts session (SnapFail.atWrite k)).1 ts
          session SnapFail.noFail = (some (saveSessionText ts session), false) :=
  ⟨rfl, rfl, rfl, rfl⟩

/-- Counterexample for claim C9 as stated: when the first write fails, the
previously persisted snapshot does not remain on disk — the file was
truncated by `open` and is left empty. -/
theorem snapshot_failure_cex :
    saveSessionDisk (some ( "old snapshot".data)) ( "2025-01-01 10:00:00".data) []
        (SnapFail.atWrite 0) = (some [], true) ∧
      some ([] : Text) ≠ some ( "old snapshot".data) := by decide

/-- Witness for C2's amended theorem at a concrete one-chunk list. -/
theorem refineJob_per_chunk_witness :
    (runB 0 [(3, ( "What a day".data))]).2.length =
      [(3, ( "What a day".data))].length :=
  (refineJob_per_chunk 0 [(3, ( "What a day".data))] streamInit 4
      ( "Hello dear world.".data)).1

/-- Witness for C3's amended theorem at a concrete buffer. -/
theorem segmenter_example_witness :
    '.' ∉ (extractCompleteSentences ( "Hello over there.".data)).2 :=
  (segmenter_example ( "Hello over there.".data)).2.1

/-- Witness for C8's theorem at a concrete failing chunk. -/
theorem engine_failure_dropped_witness :
    streamStepA streamInit ⟨9, Except.error ()⟩ = ⟨streamInit, [], []⟩ :=
  (engine_failure_dropped streamInit 9 [] [] ⟨0, 0, none⟩ []).1

/-- Witness for C9's amended theorem at a concrete failed attempt. -/
theorem snapshot_failure_witness :
    saveSessionDisk (some ( "old snapshot".data)) ( "2025-01-01 10:00:00".data) []
        SnapFail.atOpen = (some ( "old snapshot".data), true) :=
  (snapshot_failure (some ( "old snapshot".data))
      ( "2025-01-01 10:00:00".data) [] 0).1
